import Mathlib

/-!
Shallow embedding of the dictation trainer's core logic
(repository `dictation`: `src/services/storageService.ts`,
`src/components/StepPractice.tsx`, `src/App.tsx` and the unnamed
Gemini service file) together with proofs about the spec's claims.

Modelling conventions:
* JS timestamps (`Date.now()` values, milliseconds) are `Int`; the current
  instant is passed explicitly as a `now` parameter.
* JS floating-point numbers that can be `NaN` are `Option JSNum` (`none` =
  NaN), where `JSNum` is an exact unreduced fraction interpreted into `ℚ` by
  `JSNum.toQ`;
  `Infinity` never arises for the inputs considered and is not modelled.
* JS strings are Lean `String`s, manipulated through their character lists.
  `String.toLowerCase` is modelled with `Char.toLower` (ASCII case mapping);
  the claims under study only involve ASCII text.
-/

namespace Dictation

/-- Whitespace class of JavaScript regexps (`\s`) and of `String.prototype.trim`:
space, tab, LF, VT, FF, CR, NBSP, and the Unicode space separators. -/
def isWsJS (c : Char) : Bool :=
  c = ' ' ∨ c = '\t' ∨ c = '\n' ∨ c.val = 11 ∨ c.val = 12 ∨ c = '\r' ∨
  c.val = 0xa0 ∨ c.val = 0x1680 ∨ (0x2000 ≤ c.val ∧ c.val ≤ 0x200a) ∨
  c.val = 0x2028 ∨ c.val = 0x2029 ∨ c.val = 0x202f ∨ c.val = 0x205f ∨
  c.val = 0x3000 ∨ c.val = 0xfeff

/-- Model of `String.prototype.trim`: drop leading and trailing whitespace. -/
def jsTrim (s : String) : String :=
  ⟨(s.data.dropWhile isWsJS).reverse.dropWhile isWsJS |>.reverse⟩

/-- Numeric value of a list of decimal digits. -/
def digitsToNat (l : List Char) : Nat :=
  l.foldl (fun acc c => 10 * acc + (c.toNat - '0'.toNat)) 0

/-- Model of `parseInt(s, 10)`: skip leading whitespace, optional sign,
then the maximal run of leading decimal digits; `none` (NaN) when there is
no digit. -/
def jsParseInt (s : String) : Option Int :=
  let l := s.data.dropWhile isWsJS
  let (sign, l) : Int × List Char :=
    match l with
    | '-' :: rest => (-1, rest)
    | '+' :: rest => (1, rest)
    | _ => (1, l)
  let ds := l.takeWhile Char.isDigit
  if ds.isEmpty then none else some (sign * (digitsToNat ds : Int))

/-- Exact value of a (non-NaN) JS number, carried as an unreduced fraction
`(numerator, denominator)` with a positive denominator.  Lean's normalized
`Rat` arithmetic is not kernel-computable (it relies on `Nat.gcd`), so the
embedding keeps the fractions the parsing functions produce and interprets
them into `ℚ` through `JSNum.toQ` in the statements that mention values. -/
abbrev JSNum : Type := Int × Nat

/-- Rational value denoted by a `JSNum` fraction. -/
def JSNum.toQ (a : JSNum) : ℚ :=
  (a.1 : ℚ) / (a.2 : ℚ)

/-- Exact fraction addition (common-denominator product). -/
def JSNum.add (a b : JSNum) : JSNum :=
  (a.1 * (b.2 : Int) + b.1 * (a.2 : Int), a.2 * b.2)

/-- Exact multiplication of a fraction by an integer. -/
def JSNum.mulInt (a : JSNum) (k : Int) : JSNum :=
  (a.1 * k, a.2)

/-- JS number holding an integer value. -/
def jsnOfInt (i : Int) : JSNum :=
  (i, 1)

/-- Model of `parseFloat(s)`: skip leading whitespace, optional sign, a
decimal literal `digits [. digits]` or `. digits`, and an optional exponent
`e|E [sign] digits` (consumed only when digits follow); `none` (NaN) when no
number can be parsed.  JS `Infinity` literals are not modelled.  The value
`sign * (intPart + fracPart/10^f) * 10^(±exp)` is produced as one exact
fraction. -/
def jsParseFloat (s : String) : Option JSNum :=
  let l := s.data.dropWhile isWsJS
  let (sign, l) : Int × List Char :=
    match l with
    | '-' :: rest => (-1, rest)
    | '+' :: rest => (1, rest)
    | _ => (1, l)
  let ip := l.takeWhile Char.isDigit
  let l := l.dropWhile Char.isDigit
  let (fp, l) : List Char × List Char :=
    match l with
    | '.' :: rest => (rest.takeWhile Char.isDigit, rest.dropWhile Char.isDigit)
    | _ => ([], l)
  if ip.isEmpty ∧ fp.isEmpty then none
  else
    let num : Int := sign * (digitsToNat ip * 10 ^ fp.length + digitsToNat fp : Nat)
    let den : Nat := 10 ^ fp.length
    let exp : Bool × Nat :=
      match l with
      | 'e' :: '-' :: rest =>
          if (rest.takeWhile Char.isDigit).isEmpty then (false, 0)
          else (true, digitsToNat (rest.takeWhile Char.isDigit))
      | 'e' :: '+' :: rest =>
          if (rest.takeWhile Char.isDigit).isEmpty then (false, 0)
          else (false, digitsToNat (rest.takeWhile Char.isDigit))
      | 'e' :: rest =>
          if (rest.takeWhile Char.isDigit).isEmpty then (false, 0)
          else (false, digitsToNat (rest.takeWhile Char.isDigit))
      | 'E' :: '-' :: rest =>
          if (rest.takeWhile Char.isDigit).isEmpty then (false, 0)
          else (true, digitsToNat (rest.takeWhile Char.isDigit))
      | 'E' :: '+' :: rest =>
          if (rest.takeWhile Char.isDigit).isEmpty then (false, 0)
          else (false, digitsToNat (rest.takeWhile Char.isDigit))
      | 'E' :: rest =>
          if (rest.takeWhile Char.isDigit).isEmpty then (false, 0)
          else (false, digitsToNat (rest.takeWhile Char.isDigit))
      | _ => (false, 0)
    if exp.1 then some (num, den * 10 ^ exp.2)
    else some (num * 10 ^ exp.2, den)

/-- Splitting a character list at every occurrence of a separator character,
keeping empty pieces (the semantics of JS `String.prototype.split` with a
single-character separator: `"".split(c)` is `[""]`, a trailing separator
yields a trailing empty piece). -/
def splitOnChar (sep : Char) : List Char → List (List Char)
  | [] => [[]]
  | c :: cs =>
    if c = sep then [] :: splitOnChar sep cs
    else
      match splitOnChar sep cs with
      | [] => [[c]]
      | t :: ts => (c :: t) :: ts

/-- Model of JS `s.split(sep)` for a one-character separator. -/
def jsSplit (sep : Char) (s : String) : List String :=
  (splitOnChar sep s.data).map fun l => ⟨l⟩

/-- Model of `parseTimestamp` (Gemini service file).  Source:
`if (!timeStr) return 0; const parts = timeStr.trim().split(':');` then the
two-part branch `minutes*60 + seconds`, the three-part branch
`hours*3600 + minutes*60 + seconds`, and the fallback
`parseFloat(timeStr) || 0`.  `none` models a NaN result (NaN propagates
through the arithmetic of the 2- and 3-part branches). -/
def parseTimestamp (timeStr : String) : Option JSNum :=
  if timeStr = "" then some (jsnOfInt 0)
  else
    let parts := jsSplit ':' (jsTrim timeStr)
    if parts.length = 2 then do
      let m ← jsParseInt (parts.getD 0 "")
      let s ← jsParseFloat (parts.getD 1 "")
      pure (JSNum.add (JSNum.mulInt (jsnOfInt m) 60) s)
    else if parts.length = 3 then do
      let h ← jsParseInt (parts.getD 0 "")
      let m ← jsParseInt (parts.getD 1 "")
      let s ← jsParseFloat (parts.getD 2 "")
      pure (JSNum.add (JSNum.add (JSNum.mulInt (jsnOfInt h) 3600)
        (JSNum.mulInt (jsnOfInt m) 60)) s)
    else
      some ((jsParseFloat timeStr).getD (jsnOfInt 0))

/-- Decimal digit characters (the regexp class `\d`), used to quantify over
the timestamp format families `MM:SS[.mmm]`, `H:MM:SS[.mmm]` and
`SS[.mmm]`. -/
def digitChars : List Char :=
  ['0', '1', '2', '3', '4', '5', '6', '7', '8', '9']

/-- Characters of a decimal-seconds token `SS[.mmm]`: the digits `ss`
followed, when `frac` is non-empty, by a dot and the digits `frac`. -/
def decToken (ss frac : List Char) : List Char :=
  if frac.isEmpty then ss else ss ++ '.' :: frac

/-- Numeric value of a decimal-seconds token `SS[.mmm]`. -/
def decTokenVal (ss frac : List Char) : ℚ :=
  (digitsToNat ss : ℚ) + (digitsToNat frac : ℚ) / (10 : ℚ) ^ frac.length

/-! ## storageService.ts : spaced-repetition scheduler -/

/-- Spaced-repetition intervals in days (`SRS_INTERVALS` in
`storageService.ts`). -/
def SRS_INTERVALS : List Int := [1, 3, 5, 7, 14, 30, 60, 90, 120, 150]

/-- Milliseconds in one day (`24 * 60 * 60 * 1000`). -/
def oneDay : Int := 24 * 60 * 60 * 1000

/-- Milliseconds in one (365-day) year (`365 * 24 * 60 * 60 * 1000`). -/
def oneYear : Int := 365 * 24 * 60 * 60 * 1000

/-- Result record of `calculateNextReview`. -/
structure ReviewResult where
  nextDate : Int
  nextStage : Nat
  isFinished : Bool
deriving DecidableEq, Repr

/-- Model of `calculateNextReview` (`storageService.ts`).  `now` stands for
the `Date.now()` call at the head of the function. -/
def calculateNextReview (now : Int) (currentStage : Nat) : ReviewResult :=
  let daysToAdd : Int :=
    if h : currentStage < SRS_INTERVALS.length then SRS_INTERVALS.get ⟨currentStage, h⟩
    else 30
  { nextDate := now + daysToAdd * oneDay
    nextStage := currentStage + 1
    isFinished := decide (currentStage ≥ SRS_INTERVALS.length + 12) }

/-- Model of the `Segment` record (`types.ts`).  The synthetic id
`seg-${index}-${Date.now()}` is modelled by its numeric line index; `start`
and `end` are JS numbers (`Option JSNum`, `none` = NaN); `endTime` stands for the
source field `end` (a Lean keyword). -/
structure Segment where
  id : Nat
  text : String
  translation : String
  start : Option JSNum
  endTime : Option JSNum
deriving DecidableEq, Repr

/-- Model of the `Article` record (`types.ts`).  The opaque `audioBlob` and
the optional `miniStoryInteractions` play no role in the claims under study
and are omitted. -/
structure Article where
  id : String
  title : String
  createdAt : Int
  lastPracticed : Option Int
  nextReview : Int
  stage : Nat
  segments : List Segment
  currentSegmentIndex : Nat
deriving DecidableEq, Repr

/-- Model of `updateArticleProgress` (`storageService.ts`): the dormancy
branch fires when more than one year has elapsed since creation and returns
early; otherwise the scheduler result is applied.  The stored article is
passed in and the updated article returned (the IndexedDB get/put round
trip), and `now` stands for the `Date.now()` calls. -/
def updateArticleProgress (now : Int) (a : Article) : Article :=
  if now - a.createdAt > oneYear then
    { a with lastPracticed := some now, nextReview := now + oneYear * 10 }
  else
    let r := calculateNextReview now a.stage
    { a with lastPracticed := some now, nextReview := r.nextDate, stage := r.nextStage }

/-! ## StepPractice.tsx : text normalization and answer checking -/

/-- Punctuation characters removed by `cleanText`'s regexp
`[.,/#!$%^&*;:{}=\-_` ++ "`" ++ `~()?"']` in `StepPractice.tsx`
(escaped characters written by code point). -/
def punctChars : List Char :=
  ['.', ',', '/', '#', '!', '$', '%', '^', '&', '*', ';', ':',
   '\x7b', '\x7d', '=', '-', '_', '\x60', '~', '(', ')', '?', '\x22', '\x27']

/-- One-pass worker for `replace(/\s{2,}/g, " ")`.  `pending` records the
whitespace run currently being read: `none` when not inside one,
`some (some w)` when exactly one whitespace character `w` has been seen (a
lone whitespace character is left unchanged by the regexp), and `some none`
when the run already has two or more characters (the whole run becomes one
space). -/
def collapseWsAux (pending : Option (Option Char)) : List Char → List Char
  | [] =>
    match pending with
    | none => []
    | some (some w) => [w]
    | some none => [' ']
  | c :: cs =>
    if isWsJS c then
      match pending with
      | none => collapseWsAux (some (some c)) cs
      | some _ => collapseWsAux (some none) cs
    else
      match pending with
      | none => c :: collapseWsAux none cs
      | some (some w) => w :: c :: collapseWsAux none cs
      | some none => ' ' :: c :: collapseWsAux none cs

/-- Model of `replace(/\s{2,}/g, " ")`: every maximal run of two or more
whitespace characters becomes a single space; an isolated whitespace
character is left unchanged. -/
def collapseWs (l : List Char) : List Char :=
  collapseWsAux none l

/-- Model of `cleanText` (`StepPractice.tsx`): lowercase, strip the fixed
punctuation set, collapse whitespace runs, trim. -/
def cleanText (s : String) : String :=
  jsTrim ⟨collapseWs ((s.data.map Char.toLower).filter (fun c => ¬ c ∈ punctChars))⟩

/-- Feedback states of the practice component. -/
inductive Feedback where
  | neutral
  | correct
  | incorrect
deriving DecidableEq, Repr

/-- Model of `checkAnswer` (`StepPractice.tsx`): compare the cleaned target
segment text with the cleaned user input. -/
def checkAnswer (target input : String) : Feedback :=
  if cleanText target = cleanText input then .correct else .incorrect

/-- One-pass worker splitting a character list into its maximal
non-whitespace runs; `cur` accumulates the current run in reverse. -/
def wsRunsAux (cur : List Char) : List Char → List String
  | [] => if cur.isEmpty then [] else [⟨cur.reverse⟩]
  | c :: cs =>
    if isWsJS c then
      if cur.isEmpty then wsRunsAux [] cs
      else ⟨cur.reverse⟩ :: wsRunsAux [] cs
    else wsRunsAux (c :: cur) cs

/-- Splitting a (trimmed, whitespace-delimited) character list into its
maximal non-whitespace runs. -/
def wsRuns (l : List Char) : List String :=
  wsRunsAux [] l

/-- Model of `s.trim().split(/\s+/)` as used for `getTargetWords` and the
user words: JS `split` on an empty trimmed string yields `[""]`. -/
def jsTrimSplitWs (s : String) : List String :=
  if jsTrim s = "" then [""] else wsRuns (jsTrim s).data

/-- Model of `getTargetWords` (`StepPractice.tsx`):
`currentSegment.text.trim().split(/\s+/)`. -/
def getTargetWords (text : String) : List String :=
  jsTrimSplitWs text

/-- Loop body of `calculateMatchIndex`: walk both word lists in lockstep,
counting cleaned-word matches, stopping at the first mismatch or when either
list is exhausted. -/
def matchLoop : List String → List String → Nat
  | [], _ => 0
  | _ :: _, [] => 0
  | t :: ts, u :: us => if cleanText t = cleanText u then matchLoop ts us + 1 else 0

/-- Model of `calculateMatchIndex` (`StepPractice.tsx`). -/
def calculateMatchIndex (targetText userInput : String) : Nat :=
  matchLoop (getTargetWords targetText) (jsTrimSplitWs userInput)

/-- Rendering state of one target word in the incorrect-feedback hint
display. -/
inductive HintCell where
  | revealed (w : String)
  | hintWord (w : String)
  | masked
deriving DecidableEq, Repr

/-- Model of the incorrect-feedback render in `StepPractice.tsx`: words
before the match index are revealed, the word at the match index is the
hint, every later word renders as `***`. -/
def renderHint (targetText userInput : String) : List HintCell :=
  let m := calculateMatchIndex targetText userInput
  (getTargetWords targetText).enum.map fun p =>
    if p.1 < m then .revealed p.2
    else if p.1 = m then .hintWord p.2
    else .masked

/-! ## StepPractice.tsx : session advance and cycle completion -/

/-- Model of `saveProgress` (`StepPractice.tsx`): checkpoint the cursor and
the practice instant on the stored article. -/
def saveProgress (now : Int) (a : Article) (nextIndex : Nat) : Article :=
  { a with currentSegmentIndex := nextIndex, lastPracticed := some now }

/-- Model of `handleNext` (`StepPractice.tsx`) composed with the completion
callback (`App.tsx` `handlePracticeComplete`): before the last segment the
cursor advances; past the last segment the cursor is reset to 0 and
`updateArticleProgress` runs on the re-read article. -/
def handleNext (now : Int) (a : Article) (currentIndex : Nat) : Article :=
  let nextIndex := currentIndex + 1
  if nextIndex < a.segments.length then
    saveProgress now a nextIndex
  else
    updateArticleProgress now (saveProgress now a 0)

/-! ## StepPractice.tsx : word-lookup state machine -/

/-- Character filter of `word.replace(/[^\w\s']/g, "")`: keep word
characters, whitespace and apostrophes. -/
def keptWordChar (c : Char) : Bool :=
  c.isAlphanum ∨ c = '_' ∨ isWsJS c ∨ c = '\x27'

/-- Model of the word cleaning in `handleWordClick`. -/
def cleanWord (w : String) : String :=
  ⟨w.data.filter keptWordChar⟩

/-- Lookup-related component state of `StepPractice`, extended with the
history `calls` of issued `lookupWord` invocations (one entry per call, in
order). -/
structure LookupState where
  selectedWord : Option String
  lookupData : Option String
  isLookingUp : Bool
  savedWords : List String
  calls : List String
deriving DecidableEq, Repr

/-- Initial lookup state of a freshly mounted segment view. -/
def LookupState.init : LookupState :=
  { selectedWord := none, lookupData := none, isLookingUp := false,
    savedWords := [], calls := [] }

/-- Model of `handleWordClick` (`StepPractice.tsx`): an empty cleaned word
is ignored; otherwise the popover opens, previous data is reset, and a
`lookupWord` call is issued unconditionally. -/
def clickWord (st : LookupState) (w : String) : LookupState :=
  let cw := cleanWord w
  if cw = "" then st
  else
    { st with
      selectedWord := some cw
      isLookingUp := true
      lookupData := none
      calls := st.calls ++ [cw] }

/-- Completion of an in-flight `lookupWord` call (the `await` resuming in
`handleWordClick`). -/
def resolveLookup (st : LookupState) (d : String) : LookupState :=
  { st with lookupData := some d, isLookingUp := false }

/-- Model of closing the popover (`setSelectedWord(null)`). -/
def closePopover (st : LookupState) : LookupState :=
  { st with selectedWord := none }

/-- Model of the segment-change reset effect in `StepPractice.tsx` (the
`useEffect` on `currentIndex`): selected word, lookup data and the
saved-word set are cleared. -/
def segmentChangeReset (st : LookupState) : LookupState :=
  { st with selectedWord := none, lookupData := none, savedWords := [] }

/-! ## Gemini service file : transcript line parser

The parsing loop of `transcribeAudio` matches each trimmed line against
`/\[(\d{1,2}:\d{2}(?:\.\d{1,3})?) -> (\d{1,2}:\d{2}(?:\.\d{1,3})?)\] (.*?)(?: \| (.*))?$/`.
The regexp is unanchored at the left, so a line matches exactly when some
position starts with `[<ts> -> <ts>] `; the lazy text group and the optional
greedy translation group split the remainder at its first occurrence of
`" | "`, or take it whole when there is none. -/

/-- Matcher for one timestamp token `\d{1,2}:\d{2}(?:\.\d{1,3})?` at the head
of a character list, returning the token's characters and the rest.  The
regexp's backtracking is deterministic here: the minute width is forced by
the position of `:`, and a fraction must consist of all the digits after the
dot, between one and three of them. -/
def parseTSToken (l : List Char) : Option (List Char × List Char) :=
  let mins : Option (List Char × List Char) :=
    match l with
    | a :: b :: ':' :: r => if a.isDigit ∧ b.isDigit then some ([a, b], r) else none
    | a :: ':' :: r => if a.isDigit then some ([a], r) else none
    | _ => none
  match mins with
  | none => none
  | some (m, r) =>
    match r with
    | s1 :: s2 :: r2 =>
      if s1.isDigit ∧ s2.isDigit then
        match r2 with
        | '.' :: r3 =>
          let fd := r3.takeWhile Char.isDigit
          if 1 ≤ fd.length ∧ fd.length ≤ 3 then
            some (m ++ ':' :: s1 :: s2 :: '.' :: fd, r3.dropWhile Char.isDigit)
          else none
        | _ => some (m ++ ':' :: [s1, s2], r2)
      else none
    | _ => none

/-- Matcher for `\[<ts> -> <ts>\] ` at the head of a character list,
returning both timestamp strings and the remainder of the line. -/
def matchAt (l : List Char) : Option (String × String × List Char) :=
  match l with
  | '[' :: r =>
    match parseTSToken r with
    | some (ts1, r1) =>
      match r1 with
      | ' ' :: '-' :: '>' :: ' ' :: r2 =>
        match parseTSToken r2 with
        | some (ts2, r3) =>
          match r3 with
          | ']' :: ' ' :: r4 => some (⟨ts1⟩, ⟨ts2⟩, r4)
          | _ => none
        | none => none
      | _ => none
    | none => none
  | _ => none

/-- Leftmost-match search: the first position of the line where the
bracketed time range (followed by a space) matches, as the JS regexp engine
finds it. -/
def findMatch : List Char → Option (String × String × List Char)
  | [] => none
  | c :: cs =>
    match matchAt (c :: cs) with
    | some res => some res
    | none => findMatch cs

/-- Splitting the post-range remainder at its first occurrence of `" | "`
(the lazy text group against the optional translation group): the text part
and, when a separator was found, the translation part. -/
def splitAtPipe : List Char → List Char × Option (List Char)
  | ' ' :: '|' :: ' ' :: rest => ([], some rest)
  | [] => ([], none)
  | c :: cs =>
    let (t, tr) := splitAtPipe cs
    (c :: t, tr)

/-- Model of one iteration of the line loop in `transcribeAudio`: match the
trimmed line against the grammar, producing the two raw timestamp captures,
the raw text capture and the optional raw translation capture. -/
def matchLine (line : String) : Option (String × String × String × Option String) :=
  match findMatch (jsTrim line).data with
  | some (ts1, ts2, r) =>
    let (t, tr) := splitAtPipe r
    some (ts1, ts2, ⟨t⟩, tr.map fun l => ⟨l⟩)
  | none => none

/-- Well-formedness of one oracle line: it matches the grammar and its text
capture is non-empty once trimmed (the loop's `if (textContent)` guard —
a matching line with blank text produces no segment). -/
def lineWellFormed (line : String) : Bool :=
  match matchLine line with
  | some (_, _, txt, _) => jsTrim txt ≠ ""
  | none => false

/-- Segment built from one matched line (`segments.push({...})` in the
loop): the synthetic id is the line index, the text and translation are
trimmed, and the bounds come from `parseTimestamp` on the captures. -/
def mkSegment (idx : Nat) (ts1 ts2 txt : String) (tr : Option String) : Segment :=
  { id := idx
    text := jsTrim txt
    translation := jsTrim (tr.getD "")
    start := parseTimestamp ts1
    endTime := parseTimestamp ts2 }

/-- Model of the whole parsing loop of `transcribeAudio`, starting at line
index `idx`: non-matching lines and matching lines with blank text are
skipped, every other line contributes one segment in order. -/
def parseLinesFrom : Nat → List String → List Segment
  | _, [] => []
  | idx, line :: rest =>
    match matchLine line with
    | some (ts1, ts2, txt, tr) =>
      if jsTrim txt ≠ "" then mkSegment idx ts1 ts2 txt tr :: parseLinesFrom (idx + 1) rest
      else parseLinesFrom (idx + 1) rest
    | none => parseLinesFrom (idx + 1) rest

/-- Segment expected from a well-formed enumerated line (used to state what
the parse loop produces on fully well-formed input). -/
def segOfLine (p : Nat × String) : Segment :=
  match matchLine p.2 with
  | some (ts1, ts2, txt, tr) => mkSegment p.1 ts1 ts2 txt tr
  | none => mkSegment p.1 "" "" "" none

/-- Error taxonomy of the transcription flow; `transcriptEmpty` models the
`throw new Error("Could not parse audio. ...")` raised when the loop
produced zero segments (the spec's `TranscriptEmptyError`; `handleApiError`
re-wraps and re-throws it, so `transcribeAudio` still fails). -/
inductive TranscriptError where
  | transcriptEmpty
deriving DecidableEq, Repr

/-- Model of the result of `transcribeAudio` after the oracle replied with
`raw`: the parsed segments, or `TranscriptEmptyError` when no line produced
a segment.  An empty segment list is never returned. -/
def parseTranscript (raw : String) : Except TranscriptError (List Segment) :=
  let segs := parseLinesFrom 0 (jsSplit '\n' raw)
  if segs.isEmpty then .error .transcriptEmpty else .ok segs

/-! ## App.tsx : upload flow -/

/-- Steps of the upload flow (`AppStep` in `types.ts`). -/
inductive AppStep where
  | upload
  | review
  | practice
  | completed
deriving DecidableEq, Repr

/-- Slice of the `App` component state relevant to the upload flow,
extended with the list of articles saved so far. -/
structure AppState where
  articles : List Article
  sessionSegments : List Segment
  step : AppStep
  errorMsg : Option String
deriving DecidableEq, Repr

/-- Model of `handleFileSelect` (`App.tsx`) applied to the oracle response:
on success the segments are staged and the flow moves to the review step; on
failure the error message is surfaced and nothing else happens — in
particular no article is saved. -/
def handleFileSelect (st : AppState) (raw : String) : AppState :=
  match parseTranscript raw with
  | .ok segs => { st with sessionSegments := segs, step := .review, errorMsg := none }
  | .error _ => { st with errorMsg := some "Failed to transcribe audio" }

/-- Model of `handleReviewConfirm` (`App.tsx`): the only place an article
record is created and saved. -/
def handleReviewConfirm (st : AppState) (newArticle : Article) : AppState :=
  { st with articles := st.articles ++ [newArticle], step := .practice }

/-! ## StepMiniStory (StepPractice.tsx file) : bounded playback stop-watches -/

/-- One armed `timeupdate` stop-watch: the handler registered by
`playAudio`, pausing once the position reaches `stopAt`.  `wid` identifies
the playback window that armed it. -/
structure StopWatch where
  wid : Nat
  stopAt : ℚ
deriving DecidableEq, Repr

/-- Audio element state: current position, paused flag, and the list of
registered `timeupdate` stop-watch handlers in registration order. -/
structure AudioState where
  time : ℚ
  paused : Bool
  watches : List StopWatch
deriving DecidableEq, Repr

/-- Audio element before any playback. -/
def AudioState.init : AudioState :=
  { time := 0, paused := true, watches := [] }

/-- Model of `playAudio` in `StepMiniStory`: seek to `start`, register a new
`timeupdate` stop-watch for `stop`, and play.  Previously registered
watches are left in place — a watch is only removed by its own handler when
it fires. -/
def playAudio (st : AudioState) (start stop : ℚ) (wid : Nat) : AudioState :=
  { time := start, paused := false, watches := st.watches ++ [⟨wid, stop⟩] }

/-- Model of one `timeupdate` event at position `t`: every registered
handler runs; each one whose stop position has been reached pauses the audio
and removes itself.  Returns the new state and the ids of the windows whose
stop callbacks fired. -/
def dispatchTimeUpdate (st : AudioState) (t : ℚ) : AudioState × List Nat :=
  let fired := st.watches.filter fun w => t ≥ w.stopAt
  ({ time := t
     paused := st.paused || !fired.isEmpty
     watches := st.watches.filter fun w => ¬ t ≥ w.stopAt },
   fired.map StopWatch.wid)

/-! ## Concrete fixtures used by witness and counterexample theorems -/

/-- Article fixture for the dormancy-override witness. -/
def c2Article : Article :=
  { id := "a2", title := "old", createdAt := 0, lastPracticed := none,
    nextReview := 0, stage := 4, segments := [], currentSegmentIndex := 3 }

/-- Segment fixture. -/
def c3Seg : Segment :=
  { id := 0, text := "x", translation := "", start := some (jsnOfInt 0),
    endTime := some (jsnOfInt 1) }

/-- Article fixture with three segments, for the mid-session advance
witness. -/
def c3ArticleA : Article :=
  { id := "a3a", title := "t", createdAt := 0, lastPracticed := none,
    nextReview := 7, stage := 2, segments := [c3Seg, c3Seg, c3Seg],
    currentSegmentIndex := 1 }

/-- Article fixture with one segment, for the cycle-completion witness. -/
def c3ArticleB : Article :=
  { id := "a3b", title := "t", createdAt := 0, lastPracticed := none,
    nextReview := 7, stage := 5, segments := [c3Seg],
    currentSegmentIndex := 0 }

/-- App-state fixture for the empty-transcript witness. -/
def c6State : AppState :=
  { articles := [c3ArticleA], sessionSegments := [], step := .upload,
    errorMsg := none }

/-- Lookup-state fixture in which a lookup for "fox" has already been
issued and resolved. -/
def c9State : LookupState :=
  { selectedWord := none, lookupData := some "d", isLookingUp := false,
    savedWords := [], calls := ["fox"] }

/-- Audio state after arming window 0 (span 10–20) and then, before window
0's stop-watch has fired, arming window 1 (span 30–40) — the replay
scenario of `StepMiniStory`. -/
def c10Armed : AudioState :=
  playAudio (playAudio AudioState.init 10 20 0) 30 40 1

/-- Oracle response fixture whose two lines are both well-formed. -/
def c7Raw : String :=
  "[00:00.000 -> 00:02.500] Hello everyone. | Xin chao.\n[00:02.500 -> 00:05.100] Welcome."

/-! ## Helper lemmas -/

theorem mem_of_mem_dropWhile {p : Char → Bool} {l : List Char} {x : Char}
    (h : x ∈ l.dropWhile p) : x ∈ l := by
  induction l with
  | nil => simp [List.dropWhile] at h
  | cons c cs ih =>
    rw [List.dropWhile] at h
    split at h
    · exact List.mem_cons_of_mem c (ih h)
    · exact h

theorem mem_of_mem_jsTrim {s : String} {c : Char} (h : c ∈ (jsTrim s).data) :
    c ∈ s.data := by
  simp only [jsTrim] at h
  rw [List.mem_reverse] at h
  exact mem_of_mem_dropWhile (List.mem_reverse.mp (mem_of_mem_dropWhile h))

theorem splitOnChar_eq_single (sep : Char) (l : List Char) (h : sep ∉ l) :
    splitOnChar sep l = [l] := by
  induction l with
  | nil => rfl
  | cons c cs ih =>
    have hc : ¬ c = sep := fun hx => h (hx ▸ List.mem_cons_self c cs)
    have hcs : sep ∉ cs := fun hx => h (List.mem_cons_of_mem c hx)
    rw [splitOnChar, if_neg hc, ih hcs]

theorem dropWhile_eq_self_of {p : Char → Bool} {l : List Char}
    (h : ∀ c ∈ l, p c = false) : l.dropWhile p = l := by
  cases l with
  | nil => rfl
  | cons c cs =>
    exact List.dropWhile_cons_of_neg (by simp [h c (List.mem_cons_self c cs)])

theorem takeWhile_all {p : Char → Bool} {l : List Char}
    (h : ∀ c ∈ l, p c = true) : l.takeWhile p = l := by
  induction l with
  | nil => rfl
  | cons c cs ih =>
    rw [List.takeWhile_cons_of_pos (h c (List.mem_cons_self c cs))]
    rw [ih fun x hx => h x (List.mem_cons_of_mem c hx)]

theorem dropWhile_all {p : Char → Bool} {l : List Char}
    (h : ∀ c ∈ l, p c = true) : l.dropWhile p = [] := by
  induction l with
  | nil => rfl
  | cons c cs ih =>
    rw [List.dropWhile_cons_of_pos (h c (List.mem_cons_self c cs))]
    exact ih fun x hx => h x (List.mem_cons_of_mem c hx)

theorem takeWhile_append_stop {p : Char → Bool} {l1 l2 : List Char} {x : Char}
    (h1 : ∀ c ∈ l1, p c = true) (hx : p x = false) :
    (l1 ++ x :: l2).takeWhile p = l1 := by
  induction l1 with
  | nil => exact List.takeWhile_cons_of_neg (by simp [hx])
  | cons c cs ih =>
    rw [List.cons_append,
      List.takeWhile_cons_of_pos (h1 c (List.mem_cons_self c cs))]
    rw [ih fun y hy => h1 y (List.mem_cons_of_mem c hy)]

theorem dropWhile_append_stop {p : Char → Bool} {l1 l2 : List Char} {x : Char}
    (h1 : ∀ c ∈ l1, p c = true) (hx : p x = false) :
    (l1 ++ x :: l2).dropWhile p = x :: l2 := by
  induction l1 with
  | nil => exact List.dropWhile_cons_of_neg (by simp [hx])
  | cons c cs ih =>
    rw [List.cons_append,
      List.dropWhile_cons_of_pos (h1 c (List.mem_cons_self c cs))]
    exact ih fun y hy => h1 y (List.mem_cons_of_mem c hy)

theorem splitOnChar_append (sep : Char) (l1 l2 : List Char) (h : sep ∉ l1) :
    splitOnChar sep (l1 ++ sep :: l2) = l1 :: splitOnChar sep l2 := by
  induction l1 with
  | nil =>
    rw [List.nil_append, splitOnChar, if_pos rfl]
  | cons c cs ih =>
    have hc : ¬ c = sep := fun hx => h (hx ▸ List.mem_cons_self c cs)
    have hcs : sep ∉ cs := fun hx => h (List.mem_cons_of_mem c hx)
    rw [List.cons_append, splitOnChar, if_neg hc, ih hcs]

theorem jsTrim_all {l : List Char} (h : ∀ c ∈ l, isWsJS c = false) :
    jsTrim ⟨l⟩ = ⟨l⟩ := by
  simp only [jsTrim]
  rw [dropWhile_eq_self_of h,
    dropWhile_eq_self_of fun c hc => h c (List.mem_reverse.mp hc),
    List.reverse_reverse]

theorem digitChar_facts {c : Char} (h : c ∈ digitChars) :
    c.isDigit = true ∧ isWsJS c = false ∧ c ≠ ':' ∧ c ≠ '.' ∧ c ≠ '-' ∧ c ≠ '+' := by
  fin_cases h <;> exact ⟨rfl, rfl, by decide, by decide, by decide, by decide⟩

theorem decToken_ne_colon {ss frac : List Char}
    (h2 : ∀ c ∈ ss, c ∈ digitChars) (h3 : ∀ c ∈ frac, c ∈ digitChars) :
    ':' ∉ decToken ss frac := by
  intro hmem
  rw [decToken] at hmem
  split at hmem
  · exact (digitChar_facts (h2 _ hmem)).2.2.1 rfl
  · rcases List.mem_append.mp hmem with hm | hm
    · exact (digitChar_facts (h2 _ hm)).2.2.1 rfl
    · rcases List.mem_cons.mp hm with hm | hm
      · exact absurd hm.symm (by decide)
      · exact (digitChar_facts (h3 _ hm)).2.2.1 rfl

theorem decToken_not_ws {ss frac : List Char}
    (h2 : ∀ c ∈ ss, c ∈ digitChars) (h3 : ∀ c ∈ frac, c ∈ digitChars) :
    ∀ c ∈ decToken ss frac, isWsJS c = false := by
  intro c hmem
  rw [decToken] at hmem
  split at hmem
  · exact (digitChar_facts (h2 _ hmem)).2.1
  · rcases List.mem_append.mp hmem with hm | hm
    · exact (digitChar_facts (h2 _ hm)).2.1
    · rcases List.mem_cons.mp hm with hm | hm
      · rw [hm]; rfl
      · exact (digitChar_facts (h3 _ hm)).2.1

theorem jsParseInt_digits {l : List Char} (hne : l ≠ [])
    (h : ∀ c ∈ l, c ∈ digitChars) :
    jsParseInt ⟨l⟩ = some ((digitsToNat l : Int)) := by
  obtain ⟨c, cs, rfl⟩ : ∃ c cs, l = c :: cs := by
    cases l with
    | nil => exact absurd rfl hne
    | cons a as => exact ⟨a, as, rfl⟩
  have hcm := h c (List.mem_cons_self c cs)
  have hdig : ∀ x ∈ c :: cs, Char.isDigit x = true :=
    fun x hx => (digitChar_facts (h x hx)).1
  have hdrop : List.dropWhile isWsJS (c :: cs) = c :: cs :=
    List.dropWhile_cons_of_neg (by simp [(digitChar_facts hcm).2.1])
  have htake : List.takeWhile Char.isDigit (c :: cs) = c :: cs := takeWhile_all hdig
  fin_cases hcm
  all_goals simp [jsParseInt, hdrop, htake]

theorem jsParseFloat_decToken {ss frac : List Char} (hss : ss ≠ [])
    (h2 : ∀ c ∈ ss, c ∈ digitChars) (h3 : ∀ c ∈ frac, c ∈ digitChars) :
    jsParseFloat ⟨decToken ss frac⟩
      = some (((digitsToNat ss * 10 ^ frac.length + digitsToNat frac : Nat) : Int),
          10 ^ frac.length) := by
  obtain ⟨c, cs, rfl⟩ : ∃ c cs, ss = c :: cs := by
    cases ss with
    | nil => exact absurd rfl hss
    | cons a as => exact ⟨a, as, rfl⟩
  have hcm := h2 c (List.mem_cons_self c cs)
  have hdig : ∀ x ∈ c :: cs, Char.isDigit x = true :=
    fun x hx => (digitChar_facts (h2 x hx)).1
  have hws : isWsJS c = false := (digitChar_facts hcm).2.1
  rcases frac with _ | ⟨d, ds⟩
  · have hdt0 : decToken (c :: cs) [] = c :: cs := rfl
    have hdrop : List.dropWhile isWsJS (c :: cs) = c :: cs :=
      List.dropWhile_cons_of_neg (by simp [hws])
    have htake : List.takeWhile Char.isDigit (c :: cs) = c :: cs := takeWhile_all hdig
    have hdropd : List.dropWhile Char.isDigit (c :: cs) = [] := dropWhile_all hdig
    rw [hdt0]
    fin_cases hcm
    all_goals simp [jsParseFloat, hdrop, htake, hdropd]
  · have hdigfr : ∀ x ∈ d :: ds, Char.isDigit x = true :=
      fun x hx => (digitChar_facts (h3 x hx)).1
    have hdt1 : decToken (c :: cs) (d :: ds) = c :: (cs ++ '.' :: (d :: ds)) := rfl
    have hdrop : List.dropWhile isWsJS (c :: (cs ++ '.' :: (d :: ds)))
        = c :: (cs ++ '.' :: (d :: ds)) :=
      List.dropWhile_cons_of_neg (by simp [hws])
    have htake : List.takeWhile Char.isDigit (c :: (cs ++ '.' :: (d :: ds))) = c :: cs := by
      rw [← List.cons_append]
      exact takeWhile_append_stop hdig (by decide)
    have hdropd : List.dropWhile Char.isDigit (c :: (cs ++ '.' :: (d :: ds)))
        = '.' :: (d :: ds) := by
      rw [← List.cons_append]
      exact dropWhile_append_stop hdig (by decide)
    have htfr : List.takeWhile Char.isDigit (d :: ds) = d :: ds := takeWhile_all hdigfr
    have hdfr : List.dropWhile Char.isDigit (d :: ds) = [] := dropWhile_all hdigfr
    rw [hdt1]
    fin_cases hcm
    all_goals simp [jsParseFloat, hdrop, htake, hdropd, htfr, hdfr]

theorem string_mk_ne_empty {l : List Char} (h : l ≠ []) : (⟨l⟩ : String) ≠ "" := by
  intro heq
  exact h (by simpa [String.ext_iff] using heq)

theorem mmss_not_ws {mm ss frac : List Char}
    (h1 : ∀ c ∈ mm, c ∈ digitChars) (h2 : ∀ c ∈ ss, c ∈ digitChars)
    (h3 : ∀ c ∈ frac, c ∈ digitChars) :
    ∀ c ∈ mm ++ ':' :: decToken ss frac, isWsJS c = false := by
  intro c hc
  rcases List.mem_append.mp hc with hm | hm
  · exact (digitChar_facts (h1 c hm)).2.1
  · rcases List.mem_cons.mp hm with hm | hm
    · rw [hm]; rfl
    · exact decToken_not_ws h2 h3 c hm

theorem parseTimestamp_mmss_aux (mm ss frac : List Char) (hmm : mm ≠ []) (hss : ss ≠ [])
    (h1 : ∀ c ∈ mm, c ∈ digitChars) (h2 : ∀ c ∈ ss, c ∈ digitChars)
    (h3 : ∀ c ∈ frac, c ∈ digitChars) :
    (parseTimestamp ⟨mm ++ ':' :: decToken ss frac⟩).map JSNum.toQ
      = some ((digitsToNat mm : ℚ) * 60 + decTokenVal ss frac) := by
  have hlne : mm ++ ':' :: decToken ss frac ≠ [] := by
    simp
  have hstr := string_mk_ne_empty hlne
  have htrim : jsTrim ⟨mm ++ ':' :: decToken ss frac⟩ = ⟨mm ++ ':' :: decToken ss frac⟩ :=
    jsTrim_all (mmss_not_ws h1 h2 h3)
  have hsplit : splitOnChar ':' (mm ++ ':' :: decToken ss frac)
      = [mm, decToken ss frac] := by
    rw [splitOnChar_append ':' mm _ fun hm => (digitChar_facts (h1 _ hm)).2.2.1 rfl]
    rw [splitOnChar_eq_single ':' _ (decToken_ne_colon h2 h3)]
  have hm := jsParseInt_digits hmm h1
  have hsv := jsParseFloat_decToken hss h2 h3
  rw [parseTimestamp, if_neg hstr, htrim]
  simp only [jsSplit, hsplit, List.map, List.length]
  simp [hm, hsv, JSNum.toQ, JSNum.add, JSNum.mulInt, jsnOfInt, decTokenVal]
  have h10 : ((10 : ℚ)) ^ frac.length ≠ 0 := pow_ne_zero _ (by norm_num)
  field_simp

theorem parseTimestamp_hmmss_aux (hh mm ss frac : List Char)
    (hhh : hh ≠ []) (hmm : mm ≠ []) (hss : ss ≠ [])
    (h0 : ∀ c ∈ hh, c ∈ digitChars) (h1 : ∀ c ∈ mm, c ∈ digitChars)
    (h2 : ∀ c ∈ ss, c ∈ digitChars) (h3 : ∀ c ∈ frac, c ∈ digitChars) :
    (parseTimestamp ⟨hh ++ ':' :: (mm ++ ':' :: decToken ss frac)⟩).map JSNum.toQ
      = some ((digitsToNat hh : ℚ) * 3600 + (digitsToNat mm : ℚ) * 60
          + decTokenVal ss frac) := by
  have hlne : hh ++ ':' :: (mm ++ ':' :: decToken ss frac) ≠ [] := by
    simp
  have hstr := string_mk_ne_empty hlne
  have htrim : jsTrim ⟨hh ++ ':' :: (mm ++ ':' :: decToken ss frac)⟩
      = ⟨hh ++ ':' :: (mm ++ ':' :: decToken ss frac)⟩ := by
    refine jsTrim_all ?_
    intro c hc
    rcases List.mem_append.mp hc with hm | hm
    · exact (digitChar_facts (h0 c hm)).2.1
    · rcases List.mem_cons.mp hm with hm | hm
      · rw [hm]; rfl
      · exact mmss_not_ws h1 h2 h3 c hm
  have hsplit : splitOnChar ':' (hh ++ ':' :: (mm ++ ':' :: decToken ss frac))
      = [hh, mm, decToken ss frac] := by
    rw [splitOnChar_append ':' hh _ fun hm => (digitChar_facts (h0 _ hm)).2.2.1 rfl]
    rw [splitOnChar_append ':' mm _ fun hm => (digitChar_facts (h1 _ hm)).2.2.1 rfl]
    rw [splitOnChar_eq_single ':' _ (decToken_ne_colon h2 h3)]
  have hhv := jsParseInt_digits hhh h0
  have hmv := jsParseInt_digits hmm h1
  have hsv := jsParseFloat_decToken hss h2 h3
  rw [parseTimestamp, if_neg hstr, htrim]
  simp only [jsSplit, hsplit, List.map, List.length]
  simp [hhv, hmv, hsv, JSNum.toQ, JSNum.add, JSNum.mulInt, jsnOfInt, decTokenVal]
  have h10 : ((10 : ℚ)) ^ frac.length ≠ 0 := pow_ne_zero _ (by norm_num)
  field_simp

theorem parseTimestamp_bare_aux (ss frac : List Char) (hss : ss ≠ [])
    (h2 : ∀ c ∈ ss, c ∈ digitChars) (h3 : ∀ c ∈ frac, c ∈ digitChars) :
    (parseTimestamp ⟨decToken ss frac⟩).map JSNum.toQ
      = some (decTokenVal ss frac) := by
  have hlne : decToken ss frac ≠ [] := by
    rw [decToken]
    split
    · exact hss
    · simp [hss]
  have hstr := string_mk_ne_empty hlne
  have htrim : jsTrim ⟨decToken ss frac⟩ = ⟨decToken ss frac⟩ :=
    jsTrim_all (decToken_not_ws h2 h3)
  have hsplit : splitOnChar ':' (decToken ss frac) = [decToken ss frac] :=
    splitOnChar_eq_single ':' _ (decToken_ne_colon h2 h3)
  have hsv := jsParseFloat_decToken hss h2 h3
  rw [parseTimestamp, if_neg hstr, htrim]
  simp only [jsSplit, hsplit, List.map, List.length]
  simp [hsv, JSNum.toQ, decTokenVal]
  have h10 : ((10 : ℚ)) ^ frac.length ≠ 0 := pow_ne_zero _ (by norm_num)
  field_simp

theorem parseTimestamp_two_part_nan (s p1 p2 : String) (hs : s ≠ "")
    (hsplit : jsSplit ':' (jsTrim s) = [p1, p2])
    (h : jsParseInt p1 = none ∨ jsParseFloat p2 = none) :
    parseTimestamp s = none := by
  rcases h with h | h
  · simp [parseTimestamp, hs, hsplit, h]
  · cases hm : jsParseInt p1 <;> simp [parseTimestamp, hs, hsplit, h, hm]

theorem parseTimestamp_three_part_nan (s p1 p2 p3 : String) (hs : s ≠ "")
    (hsplit : jsSplit ':' (jsTrim s) = [p1, p2, p3])
    (h : jsParseInt p1 = none ∨ jsParseInt p2 = none ∨ jsParseFloat p3 = none) :
    parseTimestamp s = none := by
  rcases h with h | h | h
  · simp [parseTimestamp, hs, hsplit, h]
  · cases hm : jsParseInt p1 <;> simp [parseTimestamp, hs, hsplit, h, hm]
  · cases hm : jsParseInt p1 <;> cases hm2 : jsParseInt p2 <;>
      simp [parseTimestamp, hs, hsplit, h, hm, hm2]

theorem parseTimestamp_fallback_shape (s : String) (hs : s ≠ "")
    (hl2 : (jsSplit ':' (jsTrim s)).length ≠ 2)
    (hl3 : (jsSplit ':' (jsTrim s)).length ≠ 3) :
    parseTimestamp s = some ((jsParseFloat s).getD (jsnOfInt 0)) := by
  simp [parseTimestamp, hs, hl2, hl3]

theorem matchLoop_le_left : ∀ ts us : List String, matchLoop ts us ≤ ts.length
  | [], us => by simp [matchLoop]
  | _ :: _, [] => by simp [matchLoop]
  | t :: ts, u :: us => by
    by_cases h : cleanText t = cleanText u
    · simpa [matchLoop, h] using matchLoop_le_left ts us
    · simp [matchLoop, h]

theorem matchLoop_le_right : ∀ ts us : List String, matchLoop ts us ≤ us.length
  | [], us => by simp [matchLoop]
  | _ :: _, [] => by simp [matchLoop]
  | t :: ts, u :: us => by
    by_cases h : cleanText t = cleanText u
    · simpa [matchLoop, h] using matchLoop_le_right ts us
    · simp [matchLoop, h]

theorem matchLoop_take_eq : ∀ ts us : List String,
    ((ts.take (matchLoop ts us)).map cleanText) = ((us.take (matchLoop ts us)).map cleanText)
  | [], us => by simp [matchLoop]
  | _ :: _, [] => by simp [matchLoop]
  | t :: ts, u :: us => by
    by_cases h : cleanText t = cleanText u
    · simpa [matchLoop, h] using matchLoop_take_eq ts us
    · simp [matchLoop, h]

theorem matchLoop_stop : ∀ ts us : List String,
    matchLoop ts us = ts.length ∨ matchLoop ts us = us.length ∨
      cleanText (ts.getD (matchLoop ts us) "") ≠ cleanText (us.getD (matchLoop ts us) "")
  | [], us => by simp [matchLoop]
  | _ :: _, [] => by simp [matchLoop]
  | t :: ts, u :: us => by
    by_cases h : cleanText t = cleanText u
    · rcases matchLoop_stop ts us with h1 | h1 | h1
      · exact Or.inl (by simp [matchLoop, h, h1])
      · exact Or.inr (Or.inl (by simp [matchLoop, h, h1]))
      · exact Or.inr (Or.inr (by simpa [matchLoop, h] using h1))
    · exact Or.inr (Or.inr (by simp [matchLoop, h]))

theorem parseLinesFrom_eq_nil : ∀ (idx : Nat) (ls : List String),
    (∀ l ∈ ls, matchLine l = none) → parseLinesFrom idx ls = []
  | _, [], _ => rfl
  | idx, l :: rest, h => by
    have hl := h l (List.mem_cons_self l rest)
    rw [parseLinesFrom, hl]
    exact parseLinesFrom_eq_nil (idx + 1) rest fun x hx => h x (List.mem_cons_of_mem l hx)

theorem segOfLine_id (p : Nat × String) : (segOfLine p).id = p.1 := by
  rcases hm : matchLine p.2 with _ | ⟨ts1, ts2, txt, tr⟩ <;>
    simp [segOfLine, hm, mkSegment]

theorem enumFrom_fst_ge {α : Type} : ∀ (ls : List α) (n : Nat) (p : Nat × α),
    p ∈ ls.enumFrom n → n ≤ p.1
  | [], _, _, h => by simp [List.enumFrom] at h
  | a :: as, n, p, h => by
    rw [List.enumFrom] at h
    rcases List.mem_cons.mp h with h1 | h1
    · simp [h1]
    · exact Nat.le_of_succ_le (enumFrom_fst_ge as (n + 1) p h1)

theorem parseLinesFrom_wf : ∀ (ls : List String) (idx : Nat),
    (∀ l ∈ ls, lineWellFormed l = true) →
    parseLinesFrom idx ls = (ls.enumFrom idx).map segOfLine
  | [], _, _ => rfl
  | l :: rest, idx, h => by
    have hl := h l (List.mem_cons_self l rest)
    rcases hm : matchLine l with _ | ⟨ts1, ts2, txt, tr⟩
    · rw [lineWellFormed, hm] at hl
      exact absurd hl (by simp)
    · rw [lineWellFormed, hm] at hl
      have htxt : jsTrim txt ≠ "" := by simpa using hl
      have hrec := parseLinesFrom_wf rest (idx + 1) fun x hx => h x (List.mem_cons_of_mem l hx)
      simp only [parseLinesFrom, hm, List.enumFrom, List.map_cons]
      rw [if_pos htxt, hrec]
      simp [segOfLine, hm]

theorem pairwise_id_segOfLine : ∀ (ls : List String) (idx : Nat),
    ((ls.enumFrom idx).map segOfLine).Pairwise fun a b => a.id < b.id
  | [], _ => by simp
  | l :: rest, idx => by
    rw [List.enumFrom, List.map_cons]
    refine List.Pairwise.cons ?_ (pairwise_id_segOfLine rest (idx + 1))
    intro b hb
    rcases List.mem_map.mp hb with ⟨p, hp, hpb⟩
    have := enumFrom_fst_ge rest (idx + 1) p hp
    rw [← hpb, segOfLine_id, segOfLine_id]
    exact Nat.lt_of_succ_le this

/-! ## Claim theorems -/

/-- C1.  For every non-negative stage `s`, `calculateNextReview` returns
`nextStage = s + 1`; the days added are the table
`[1,3,5,7,14,30,60,90,120,150]` indexed by `s` when in bounds and `30`
otherwise (`List.getD`); `nextDate = now + daysToAdd` days; and
`isFinished` holds exactly when `s ≥ 22 = table.length + 12`. -/
theorem calculateNextReview_spec (now : Int) (s : Nat) :
    (calculateNextReview now s).nextStage = s + 1 ∧
    (calculateNextReview now s).nextDate = now + SRS_INTERVALS.getD s 30 * oneDay ∧
    ((calculateNextReview now s).isFinished = true ↔ 22 ≤ s) := by
  refine ⟨rfl, ?_, ?_⟩
  · by_cases h : s < SRS_INTERVALS.length
    · simp [calculateNextReview, h, List.getD_eq_getElem?_getD, List.getElem?_eq_getElem h]
    · simp [calculateNextReview, h, List.getD_eq_getElem?_getD,
        List.getElem?_eq_none (Nat.le_of_not_lt h)]
  · simp [calculateNextReview, SRS_INTERVALS]

/-- C2.  When more than one year has elapsed since the article's creation,
`updateArticleProgress` defers the next review by ten years and records the
practice instant, leaving `stage` and every other field unchanged — the
normal scheduler is not applied (its `nextDate`/`nextStage` play no role in
the result). -/
theorem updateArticleProgress_dormancy (now : Int) (a : Article)
    (h : now - a.createdAt > oneYear) :
    (updateArticleProgress now a).nextReview = now + oneYear * 10 ∧
    (updateArticleProgress now a).lastPracticed = some now ∧
    (updateArticleProgress now a).stage = a.stage ∧
    (updateArticleProgress now a).title = a.title ∧
    (updateArticleProgress now a).segments = a.segments ∧
    (updateArticleProgress now a).createdAt = a.createdAt ∧
    (updateArticleProgress now a).currentSegmentIndex = a.currentSegmentIndex ∧
    (updateArticleProgress now a).id = a.id := by
  simp [updateArticleProgress, h]

/-- Witness for C2 at a concrete dormant article. -/
theorem updateArticleProgress_dormancy_witness :
    (updateArticleProgress (oneYear + 1) c2Article).nextReview = (oneYear + 1) + oneYear * 10 ∧
    (updateArticleProgress (oneYear + 1) c2Article).lastPracticed = some (oneYear + 1) ∧
    (updateArticleProgress (oneYear + 1) c2Article).stage = c2Article.stage ∧
    (updateArticleProgress (oneYear + 1) c2Article).title = c2Article.title ∧
    (updateArticleProgress (oneYear + 1) c2Article).segments = c2Article.segments ∧
    (updateArticleProgress (oneYear + 1) c2Article).createdAt = c2Article.createdAt ∧
    (updateArticleProgress (oneYear + 1) c2Article).currentSegmentIndex
      = c2Article.currentSegmentIndex ∧
    (updateArticleProgress (oneYear + 1) c2Article).id = c2Article.id :=
  updateArticleProgress_dormancy (oneYear + 1) c2Article (by decide)

/-- C4.  `checkAnswer` reports `correct` exactly when the cleaned target
equals the cleaned input; `"Hello, World!"` normalizes equal to
`"hello world"`, and `"  a   b "` normalizes to `"a b"`. -/
theorem checkAnswer_spec :
    (∀ target input : String,
      checkAnswer target input = Feedback.correct ↔ cleanText target = cleanText input) ∧
    cleanText "Hello, World!" = cleanText "hello world" ∧
    cleanText "Hello, World!" = "hello world" ∧
    cleanText "  a   b " = "a b" := by
  refine ⟨fun t u => ?_, by decide, by decide, by decide⟩
  rw [checkAnswer]
  split
  · simp_all
  · simp_all

/-- C8 (counterexample).  `parseTimestamp` does not return 0 on every input
outside the three accepted formats: `"1:2:3:4"` matches none of them yet
falls through to `parseFloat` and yields 1, and `"a:b"` yields NaN. -/
theorem parseTimestamp_fallback_counterexample :
    (parseTimestamp "1:2:3:4").map JSNum.toQ = some (1 : ℚ) ∧
    parseTimestamp "a:b" = none ∧
    (1 : ℚ) ≠ 0 := by
  refine ⟨?_, by decide, by norm_num⟩
  have h : parseTimestamp "1:2:3:4" = some (1, 1) := by decide
  rw [h]
  simp [JSNum.toQ]

/-- C8 (amended).  `parseTimestamp` maps `"MM:SS[.mmm]"` to
`minutes*60 + seconds`, `"H:MM:SS[.mmm]"` to
`hours*3600 + minutes*60 + seconds` and a bare `"SS[.mmm]"` to its numeric
value, for every choice of digit strings, and never throws; but inputs
matching none of the three formats do not all map to 0: the input is
trimmed and split on `':'`, and with exactly two or three parts a
non-numeric component makes the result NaN, while with any other number of
parts the result is `parseFloat(input) || 0` — the leading numeric prefix
when `parseFloat` finds one (`"1:2:3:4"` gives 1), and 0 otherwise
(`"garbage"`, `"a:b:c:d"`, and every colon-free string `parseFloat` cannot
parse, all give 0). -/
theorem parseTimestamp_amended_spec :
    (∀ mm ss frac : List Char, mm ≠ [] → ss ≠ [] →
      (∀ c ∈ mm, c ∈ digitChars) → (∀ c ∈ ss, c ∈ digitChars) →
      (∀ c ∈ frac, c ∈ digitChars) →
      (parseTimestamp ⟨mm ++ ':' :: decToken ss frac⟩).map JSNum.toQ
        = some ((digitsToNat mm : ℚ) * 60 + decTokenVal ss frac)) ∧
    (∀ hh mm ss frac : List Char, hh ≠ [] → mm ≠ [] → ss ≠ [] →
      (∀ c ∈ hh, c ∈ digitChars) → (∀ c ∈ mm, c ∈ digitChars) →
      (∀ c ∈ ss, c ∈ digitChars) → (∀ c ∈ frac, c ∈ digitChars) →
      (parseTimestamp ⟨hh ++ ':' :: (mm ++ ':' :: decToken ss frac)⟩).map JSNum.toQ
        = some ((digitsToNat hh : ℚ) * 3600 + (digitsToNat mm : ℚ) * 60
            + decTokenVal ss frac)) ∧
    (∀ ss frac : List Char, ss ≠ [] →
      (∀ c ∈ ss, c ∈ digitChars) → (∀ c ∈ frac, c ∈ digitChars) →
      (parseTimestamp ⟨decToken ss frac⟩).map JSNum.toQ
        = some (decTokenVal ss frac)) ∧
    (∀ s p1 p2 : String, s ≠ "" → jsSplit ':' (jsTrim s) = [p1, p2] →
      (jsParseInt p1 = none ∨ jsParseFloat p2 = none) →
      parseTimestamp s = none) ∧
    (∀ s p1 p2 p3 : String, s ≠ "" → jsSplit ':' (jsTrim s) = [p1, p2, p3] →
      (jsParseInt p1 = none ∨ jsParseInt p2 = none ∨ jsParseFloat p3 = none) →
      parseTimestamp s = none) ∧
    (∀ s : String, s ≠ "" → (jsSplit ':' (jsTrim s)).length ≠ 2 →
      (jsSplit ':' (jsTrim s)).length ≠ 3 →
      parseTimestamp s = some ((jsParseFloat s).getD (jsnOfInt 0))) ∧
    (∀ s : String, ':' ∉ s.data → jsParseFloat s = none →
      (parseTimestamp s).map JSNum.toQ = some (0 : ℚ)) ∧
    (parseTimestamp "01:05.500").map JSNum.toQ = some ((131 : ℚ) / 2) ∧
    (parseTimestamp "1:02:03.250").map JSNum.toQ = some ((14893 : ℚ) / 4) ∧
    (parseTimestamp "65.5").map JSNum.toQ = some ((131 : ℚ) / 2) ∧
    (parseTimestamp "garbage").map JSNum.toQ = some (0 : ℚ) ∧
    (parseTimestamp "a:b:c:d").map JSNum.toQ = some (0 : ℚ) := by
  refine ⟨parseTimestamp_mmss_aux, parseTimestamp_hmmss_aux, parseTimestamp_bare_aux,
    parseTimestamp_two_part_nan, parseTimestamp_three_part_nan,
    parseTimestamp_fallback_shape, ?_, ?_, ?_, ?_, ?_, ?_⟩
  · intro s h1 h2
    by_cases hs : s = ""
    · subst hs
      simp [parseTimestamp, jsnOfInt, JSNum.toQ]
    · have htrim : ':' ∉ (jsTrim s).data := fun hm => h1 (mem_of_mem_jsTrim hm)
      have hsplit : splitOnChar ':' (jsTrim s).data = [(jsTrim s).data] :=
        splitOnChar_eq_single ':' _ htrim
      rw [parseTimestamp, if_neg hs]
      simp only [jsSplit, hsplit, List.map, List.length]
      norm_num
      rw [h2]
      simp [jsnOfInt, JSNum.toQ]
  · have h : parseTimestamp "01:05.500" = some (65500, 1000) := by decide
    rw [h]; simp [JSNum.toQ]; norm_num
  · have h : parseTimestamp "1:02:03.250" = some (3723250, 1000) := by decide
    rw [h]; simp [JSNum.toQ]; norm_num
  · have h : parseTimestamp "65.5" = some (655, 10) := by decide
    rw [h]; simp [JSNum.toQ]; norm_num
  · have h : parseTimestamp "garbage" = some (0, 1) := by decide
    rw [h]; simp [JSNum.toQ]
  · have h : parseTimestamp "a:b:c:d" = some (0, 1) := by decide
    rw [h]; simp [JSNum.toQ]

/-- Witness for the amended C8: the `MM:SS.mmm` mapping at the concrete
digit strings of `"42:07.5"`, and a concrete colon-free unparseable
input. -/
theorem parseTimestamp_amended_witness :
    (parseTimestamp ⟨['4', '2'] ++ ':' :: decToken ['0', '7'] ['5']⟩).map JSNum.toQ
      = some ((digitsToNat ['4', '2'] : ℚ) * 60 + decTokenVal ['0', '7'] ['5']) ∧
    (parseTimestamp "zz").map JSNum.toQ = some (0 : ℚ) :=
  ⟨parseTimestamp_amended_spec.1 ['4', '2'] ['0', '7'] ['5'] (by decide) (by decide)
      (by decide) (by decide) (by decide),
   parseTimestamp_amended_spec.2.2.2.2.2.2.1 "zz" (by decide) (by decide)⟩

/-- C9 (counterexample).  There is no per-word lookup cache: after a lookup
for "fox" was issued and resolved, closing the popover and tapping "fox"
again issues a second `lookupWord` call for the same word. -/
theorem lookup_repeat_counterexample :
    (clickWord LookupState.init "fox").calls = ["fox"] ∧
    (clickWord (closePopover (resolveLookup (clickWord LookupState.init "fox") "d"))
      "fox").calls = ["fox", "fox"] := by
  exact ⟨rfl, rfl⟩

/-- C9 (amended).  Tapping a word always issues a fresh `lookupWord` call
for the cleaned word, whatever the current state (no deduplication, no
cache); the lookup-related state (selected word, lookup data, saved-word
set) is cleared when the current segment changes. -/
theorem lookup_no_dedup_spec (st : LookupState) (w : String)
    (h : cleanWord w ≠ "") :
    (clickWord st w).calls = st.calls ++ [cleanWord w] ∧
    (segmentChangeReset st).selectedWord = none ∧
    (segmentChangeReset st).lookupData = none ∧
    (segmentChangeReset st).savedWords = [] := by
  refine ⟨?_, rfl, rfl, rfl⟩
  simp [clickWord, h]

/-- Witness for the amended C9: a second tap on "fox" in a state whose call
history already holds "fox" appends another call. -/
theorem lookup_no_dedup_witness :
    (clickWord c9State "fox").calls = c9State.calls ++ [cleanWord "fox"] ∧
    (segmentChangeReset c9State).selectedWord = none ∧
    (segmentChangeReset c9State).lookupData = none ∧
    (segmentChangeReset c9State).savedWords = [] :=
  lookup_no_dedup_spec c9State "fox" (by decide)

/-- C3.  Advancing before the last segment only moves the cursor, leaving
`stage` and `nextReview` untouched; advancing past the last segment resets
the cursor to 0 and applies the scheduler update (`updateArticleProgress`)
exactly once — in the non-dormant case the stage grows by exactly one. -/
theorem handleNext_cycle_spec (now : Int) (a : Article) (i : Nat) :
    (i + 1 < a.segments.length →
      (handleNext now a i).currentSegmentIndex = i + 1 ∧
      (handleNext now a i).stage = a.stage ∧
      (handleNext now a i).nextReview = a.nextReview) ∧
    (a.segments.length ≤ i + 1 →
      handleNext now a i = updateArticleProgress now (saveProgress now a 0) ∧
      (handleNext now a i).currentSegmentIndex = 0 ∧
      (now - a.createdAt ≤ oneYear →
        (handleNext now a i).stage = a.stage + 1)) := by
  constructor
  · intro h
    simp [handleNext, h, saveProgress]
  · intro h
    have h' : ¬ (i + 1 < a.segments.length) := by omega
    refine ⟨by simp [handleNext, h'], ?_, ?_⟩
    · simp only [handleNext, if_neg h', updateArticleProgress]
      split <;> simp [saveProgress]
    · intro hd
      have hcond : ¬ oneYear < now - a.createdAt := by omega
      simp [handleNext, if_neg h', updateArticleProgress, hcond, saveProgress,
        calculateNextReview]

/-- Witness for C3: a mid-session advance on a three-segment article and a
final advance on a one-segment, recently created article. -/
theorem handleNext_cycle_witness :
    ((handleNext 0 c3ArticleA 1).currentSegmentIndex = 1 + 1 ∧
      (handleNext 0 c3ArticleA 1).stage = c3ArticleA.stage ∧
      (handleNext 0 c3ArticleA 1).nextReview = c3ArticleA.nextReview) ∧
    (handleNext 0 c3ArticleB 0 = updateArticleProgress 0 (saveProgress 0 c3ArticleB 0) ∧
      (handleNext 0 c3ArticleB 0).currentSegmentIndex = 0 ∧
      (handleNext 0 c3ArticleB 0).stage = c3ArticleB.stage + 1) := by
  have hA := (handleNext_cycle_spec 0 c3ArticleA 1).1 (by decide)
  have hB := (handleNext_cycle_spec 0 c3ArticleB 0).2 (by decide)
  exact ⟨hA, hB.1, hB.2.1, hB.2.2 (by decide)⟩

/-- C5.  `calculateMatchIndex` computes the length of the longest common
prefix run of target and input words equal under `cleanText`, stopping at
the first mismatch (it is bounded by both lists, the cleaned prefixes
coincide, and it either exhausts a list or sits on a mismatch); on target
`"the quick brown fox"` and input `"the quick red fox"` it yields 2, the
matched prefix `["the", "quick"]`, hint word `"brown"`, and exactly one
masked word in the rendered hint row. -/
theorem matchIndex_spec :
    (∀ targetText userInput : String,
      calculateMatchIndex targetText userInput ≤ (getTargetWords targetText).length ∧
      calculateMatchIndex targetText userInput ≤ (jsTrimSplitWs userInput).length ∧
      ((getTargetWords targetText).take
          (calculateMatchIndex targetText userInput)).map cleanText
        = ((jsTrimSplitWs userInput).take
            (calculateMatchIndex targetText userInput)).map cleanText ∧
      (calculateMatchIndex targetText userInput = (getTargetWords targetText).length ∨
       calculateMatchIndex targetText userInput = (jsTrimSplitWs userInput).length ∨
       cleanText ((getTargetWords targetText).getD
           (calculateMatchIndex targetText userInput) "")
         ≠ cleanText ((jsTrimSplitWs userInput).getD
             (calculateMatchIndex targetText userInput) ""))) ∧
    calculateMatchIndex "the quick brown fox" "the quick red fox" = 2 ∧
    (getTargetWords "the quick brown fox").take 2 = ["the", "quick"] ∧
    renderHint "the quick brown fox" "the quick red fox" =
      [.revealed "the", .revealed "quick", .hintWord "brown", .masked] ∧
    (renderHint "the quick brown fox" "the quick red fox").count .masked = 1 := by
  refine ⟨fun t u => ⟨matchLoop_le_left _ _, matchLoop_le_right _ _,
    matchLoop_take_eq _ _, matchLoop_stop _ _⟩, by decide, by decide, by decide, by decide⟩

/-- C6.  When no line of the oracle response matches the transcript grammar,
the parse produces `TranscriptEmptyError` (never an empty segment list), and
the caller surfaces the error without creating any article and without
leaving the upload step. -/
theorem transcript_empty_spec (raw : String) (st : AppState)
    (h : ∀ l ∈ jsSplit '\n' raw, matchLine l = none) :
    parseTranscript raw = .error .transcriptEmpty ∧
    (∀ segs, parseTranscript raw ≠ .ok segs) ∧
    (handleFileSelect st raw).articles = st.articles ∧
    (handleFileSelect st raw).step = st.step := by
  have hnil : parseLinesFrom 0 (jsSplit '\n' raw) = [] :=
    parseLinesFrom_eq_nil 0 (jsSplit '\n' raw) h
  have hp : parseTranscript raw = .error .transcriptEmpty := by
    simp [parseTranscript, hnil]
  refine ⟨hp, fun segs hcontra => by simp [hp] at hcontra, ?_, ?_⟩ <;>
    simp [handleFileSelect, hp]

/-- Witness for C6 at a concrete unparseable response. -/
theorem transcript_empty_witness :
    parseTranscript "just some noise" = .error .transcriptEmpty ∧
    (∀ segs, parseTranscript "just some noise" ≠ .ok segs) ∧
    (handleFileSelect c6State "just some noise").articles = c6State.articles ∧
    (handleFileSelect c6State "just some noise").step = c6State.step :=
  transcript_empty_spec "just some noise" c6State (by decide)

/-- C7.  When every line of the oracle response is well-formed under the
grammar, the parse loop produces exactly one segment per line, in original
line order (it equals the enumerated lines mapped through `segOfLine`, whose
`start`/`end` come from `parseTimestamp` on the captured timestamps), with
as many segments as lines and strictly increasing synthetic ids; and any
line that is not well-formed is skipped silently, the loop never raising. -/
theorem transcript_parser_spec (raw : String) :
    ((∀ l ∈ jsSplit '\n' raw, lineWellFormed l = true) →
      parseLinesFrom 0 (jsSplit '\n' raw)
        = ((jsSplit '\n' raw).enumFrom 0).map segOfLine ∧
      (parseLinesFrom 0 (jsSplit '\n' raw)).length = (jsSplit '\n' raw).length ∧
      (parseLinesFrom 0 (jsSplit '\n' raw)).Pairwise fun s₁ s₂ => s₁.id < s₂.id) ∧
    (∀ (idx : Nat) (l : String) (rest : List String), lineWellFormed l = false →
      parseLinesFrom idx (l :: rest) = parseLinesFrom (idx + 1) rest) := by
  constructor
  · intro h
    have heq := parseLinesFrom_wf (jsSplit '\n' raw) 0 h
    refine ⟨heq, ?_, ?_⟩
    · rw [heq, List.length_map, List.enumFrom_length]
    · rw [heq]
      exact pairwise_id_segOfLine (jsSplit '\n' raw) 0
  · intro idx l rest hl
    rcases hm : matchLine l with _ | ⟨ts1, ts2, txt, tr⟩
    · rw [parseLinesFrom, hm]
    · rw [lineWellFormed, hm] at hl
      have htxt : ¬ jsTrim txt ≠ "" := by simpa using hl
      simp only [parseLinesFrom, hm]
      rw [if_neg htxt]

/-- Witness for C7: a two-line fully well-formed response parses to the
enumerated segments, and a malformed line is skipped. -/
theorem transcript_parser_witness :
    (parseLinesFrom 0 (jsSplit '\n' c7Raw)
        = ((jsSplit '\n' c7Raw).enumFrom 0).map segOfLine ∧
      (parseLinesFrom 0 (jsSplit '\n' c7Raw)).length = (jsSplit '\n' c7Raw).length ∧
      (parseLinesFrom 0 (jsSplit '\n' c7Raw)).Pairwise fun s₁ s₂ => s₁.id < s₂.id) ∧
    parseLinesFrom 0 ["junk"] = parseLinesFrom 1 [] :=
  ⟨(transcript_parser_spec c7Raw).1 (by decide),
   (transcript_parser_spec c7Raw).2 0 "junk" [] (by decide)⟩

/-- C10 (bug evidence).  `StepMiniStory.playAudio` arms a new stop-watch
without disarming the previous one: after window 0 (10–20) is armed and
then window 1 (30–40) is armed, both watches are registered, and the next
`timeupdate` (at 35) fires window 0's stop callback — pausing playback —
after window 1 was armed. -/
theorem ministory_watch_leak :
    c10Armed.watches = [⟨0, 20⟩, ⟨1, 40⟩] ∧
    (dispatchTimeUpdate c10Armed 35).2 = [0] ∧
    (dispatchTimeUpdate c10Armed 35).1.paused = true := by
  refine ⟨rfl, by decide, by decide⟩

end Dictation
